import Mathlib

/-!
Verification of the `dice` package of the rand-table repository.

The Go sources are embedded shallowly:
* `Dice` mirrors the `Dice` struct (`src/pkg/dice/rand.go`); Go `int` fields are
  modelled as `Int`.
* `DiceError` mirrors the five error constructors of the error helper file,
  each carrying the offending value(s) passed to `fmt.Errorf`.
* `Validate`, `New`, `NewExt`, `Dice.String`, `RollResults`, `RollRand` are
  translated line by line from `src/pkg/dice/rand.go`.  The one place where
  Go `int` arithmetic can overflow on in-range operands — the sum
  `d.DropLow+d.DropHigh` in `Validate` — is modelled with the two's-complement
  wrap `goIntAdd`; the comparisons, and the arithmetic `RollResults` performs
  on specs satisfying the validity conditions, cannot overflow and are exact
  over `Int`.
* A `Rand` source (the Go interface `Rand { Intn(n int) int }`, possibly
  stateful as with the pointer-receiver mock in the tests) is modelled as a
  state-passing function `intn : Int → σ → Int × σ`.
* Go slice expressions `raw[a:b]` panic when the bounds are out of range, so
  `RollResults` returns `Option`: `none` models the panic.
* `math/big` integers are modelled by `Int` (unbounded).
-/

namespace RandTable

/-- The `Dice` struct: a set of similar dice which may be rolled. -/
structure Dice where
  Number : Int
  Sides : Int
  DropLow : Int
  DropHigh : Int
deriving DecidableEq, Repr

/-- The five validation errors built by the `Err*` helper functions, each
carrying the offending numeric value(s). -/
inductive DiceError where
  | numberTooLow (num : Int)
  | sidesTooLow (num : Int)
  | dropLowTooLow (num : Int)
  | dropHighTooLow (num : Int)
  | tooManyDropped (low high num : Int)
deriving DecidableEq, Repr

/-- Go 64-bit signed integer addition: the sum wraps, two's-complement, into
`[-2^63, 2^63)`. -/
def goIntAdd (a b : Int) : Int :=
  (a + b + 9223372036854775808) % 18446744073709551616 - 9223372036854775808

/-- `Dice.Validate`: the five checks, in source order; the first failing check
produces the error. `none` models the Go `nil` error.  The fifth check
computes `d.DropLow+d.DropHigh` in Go `int` arithmetic, which wraps on
overflow. -/
def Validate (d : Dice) : Option DiceError :=
  if d.Number < 1 then some (DiceError.numberTooLow d.Number)
  else if d.Sides ≤ 1 then some (DiceError.sidesTooLow d.Sides)
  else if d.DropLow < 0 then some (DiceError.dropLowTooLow d.DropLow)
  else if d.DropHigh < 0 then some (DiceError.dropHighTooLow d.DropHigh)
  else if goIntAdd d.DropLow d.DropHigh ≥ d.Number then
    some (DiceError.tooManyDropped d.DropLow d.DropHigh d.Number)
  else none

/-- `NewExt`: builds the struct from the four arguments, validates it, and
returns either the validated dice or the validation error. -/
def NewExt (num sides droplow drophigh : Int) : Except DiceError Dice :=
  let d : Dice := ⟨num, sides, droplow, drophigh⟩
  match Validate d with
  | some err => Except.error err
  | none => Except.ok d

/-- `New`: `NewExt` with no dropped dice. -/
def New (num sides : Int) : Except DiceError Dice :=
  NewExt num sides 0 0

/-- `Dice.String`: the `%dd%d` base with `L%d` / `H%d` suffixes, following the
branch structure of the Go method. -/
def Dice.String (d : Dice) : String :=
  if d.DropLow > 0 then
    if d.DropHigh > 0 then
      toString d.Number ++ "d" ++ toString d.Sides ++ "L" ++ toString d.DropLow
        ++ "H" ++ toString d.DropHigh
    else
      toString d.Number ++ "d" ++ toString d.Sides ++ "L" ++ toString d.DropLow
  else
    if d.DropHigh > 0 then
      toString d.Number ++ "d" ++ toString d.Sides ++ "H" ++ toString d.DropHigh
    else
      toString d.Number ++ "d" ++ toString d.Sides

/-- A random source: the Go interface `Rand { Intn(n int) int }`.  An
implementation may be stateful (state type `σ`); `intn n s` returns the drawn
value together with the successor state. -/
structure Rand (σ : Type) where
  intn : Int → σ → Int × σ

/-- The draw loop of `RollResults`: `Number` iterations of
`raw = append(raw, r.Intn(d.Sides)+1)`, threading the source state; returns
the raw values in draw order and the final state. -/
def drawRaw {σ : Type} (r : Rand σ) (sides : Int) : Nat → σ → List Int × σ
  | 0, s => ([], s)
  | n + 1, s =>
    let q := r.intn sides s
    let rest := drawRaw r sides n q.2
    ((q.1 + 1) :: rest.1, rest.2)

/-- A Go slice expression `xs[lo:hi]` (with `hi = len xs` when elided):
`none` when the bounds are out of range, which panics in Go. -/
def goSlice (xs : List Int) (lo hi : Int) : Option (List Int) :=
  if 0 ≤ lo ∧ lo ≤ hi ∧ hi ≤ (xs.length : Int) then
    some ((xs.drop lo.toNat).take (hi - lo).toNat)
  else none

/-- The `Results` struct returned by `RollResults`. -/
structure Results where
  Value : Int
  DroppedLow : List Int
  DroppedHigh : List Int
  Kept : List Int
  Raw : List Int
deriving DecidableEq, Repr

/-- `Dice.RollResults`: draw `Number` values in `[1, Sides]`, sort ascending
(`sort.Ints`, modelled by insertion sort), partition via the slice
expressions `raw[:DropLow]` (when `DropLow > 0`), `raw[Number-DropHigh:]`
(when `DropHigh > 0`) and `raw[DropLow : Number-DropHigh]`, and fold the
kept values into the total. `none` models a panic of one of the slice
expressions. -/
def RollResults {σ : Type} (d : Dice) (r : Rand σ) (s : σ) :
    Option (Results × σ) :=
  let p := drawRaw r d.Sides d.Number.toNat s
  let raw := p.1.insertionSort (fun a b => a ≤ b)
  match (if d.DropLow > 0 then goSlice raw 0 d.DropLow else some []),
      (if d.DropHigh > 0 then
        goSlice raw (d.Number - d.DropHigh) (raw.length : Int)
      else some []),
      goSlice raw d.DropLow (d.Number - d.DropHigh) with
  | some dlow, some dhigh, some kept =>
    some (⟨kept.foldl (fun acc v => acc + v) 0, dlow, dhigh, kept, raw⟩, p.2)
  | _, _, _ => none

/-- `Dice.RollRand`: `d.RollResults(r).Value`. -/
def RollRand {σ : Type} (d : Dice) (r : Rand σ) (s : σ) : Option (Int × σ) :=
  (RollResults d r s).map (fun p => (p.1.Value, p.2))

/-- The test mock `mockMaxRand`: always returns `n - 1`, no state. -/
def mockMaxRand : Rand Unit :=
  ⟨fun n s => (n - 1, s)⟩

/-- The test mock `mockIterRand`: returns its counter modulo `n` (Go `%`,
i.e. truncated remainder) and increments the counter. -/
def mockIterRand : Rand Int :=
  ⟨fun n s => (Int.tmod s n, s + 1)⟩

/-- The method call `d.Validate()` seen as a receiver transformer: the Go
method reads the four fields and assigns none of them, so the receiver after
the call is `d` itself, paired with the returned error. -/
def ValidateM (d : Dice) : Option DiceError × Dice :=
  (Validate d, d)

/-- `n` successive calls of `Validate()` starting from receiver `d`, threading
the receiver state across calls; returns the final receiver state and the
list of call results in order. -/
def validateSeq (d : Dice) : Nat → Dice × List (Option DiceError)
  | 0 => (d, [])
  | n + 1 =>
    let c := ValidateM d
    let rest := validateSeq c.2 n
    (rest.1, c.1 :: rest.2)

/-- The method call `d.RollResults(r)` seen as a receiver transformer: the Go
method never assigns a field of `d`, so the receiver after the call is `d`. -/
def RollResultsM {σ : Type} (d : Dice) (r : Rand σ) (s : σ) :
    Option (Results × σ) × Dice :=
  (RollResults d r s, d)

/-- The method call `d.RollRand(r)` seen as a receiver transformer. -/
def RollRandM {σ : Type} (d : Dice) (r : Rand σ) (s : σ) :
    Option (Int × σ) × Dice :=
  (RollRand d r s, d)

/-- The method call `d.String()` seen as a receiver transformer. -/
def StringM (d : Dice) : String × Dice :=
  (d.String, d)

/-- The `Rand` contract: `Intn(n)` returns a value in `[0, n)` for every
positive bound `n`, in every state. -/
def RandInRange {σ : Type} (r : Rand σ) : Prop :=
  ∀ (n : Int) (st : σ), 0 < n → 0 ≤ (r.intn n st).1 ∧ (r.intn n st).1 < n
/-- The draw loop produces exactly `n` values. -/
theorem drawRaw_length {σ : Type} (r : Rand σ) (sides : Int) :
    ∀ (n : Nat) (s : σ), ((drawRaw r sides n s).1).length = n := by
  intro n
  induction n with
  | zero => intro s; rfl
  | succ k ih => intro s; simp [drawRaw, ih]

/-- With an in-range source and a positive bound, every drawn value lies in
`[1, sides]`. -/
theorem drawRaw_mem {σ : Type} (r : Rand σ) (sides : Int) (hs : 0 < sides)
    (hr : RandInRange r) :
    ∀ (n : Nat) (s : σ) (v : Int), v ∈ (drawRaw r sides n s).1 →
      1 ≤ v ∧ v ≤ sides := by
  intro n
  induction n with
  | zero => intro s v hv; simp [drawRaw] at hv
  | succ k ih =>
    intro s v hv
    simp only [drawRaw, List.mem_cons] at hv
    rcases hv with h | h
    · have hb := hr sides s hs
      omega
    · exact ih _ v h
/-- `Validate` succeeds exactly on the five checks of the source, the fifth
taken over the wrapped 64-bit sum of the drop counts. -/
theorem validate_none_iff (d : Dice) :
    Validate d = none ↔ 1 ≤ d.Number ∧ 2 ≤ d.Sides ∧ 0 ≤ d.DropLow
      ∧ 0 ≤ d.DropHigh ∧ goIntAdd d.DropLow d.DropHigh < d.Number := by
  unfold Validate
  split_ifs <;> simp <;> omega

/-- The summation loop of `RollResults` computes `List.sum`. -/
theorem foldl_add_sum : ∀ (l : List Int) (a : Int),
    l.foldl (fun acc v => acc + v) a = a + l.sum := by
  intro l
  induction l with
  | nil => intro a; simp
  | cons x xs ih => intro a; simp [ih]; ring

/-- A list of values all lying in `[lo, hi]` has its sum between
`length * lo` and `length * hi`. -/
theorem list_sum_bounds (l : List Int) (lo hi : Int)
    (h : ∀ v ∈ l, lo ≤ v ∧ v ≤ hi) :
    (l.length : Int) * lo ≤ l.sum ∧ l.sum ≤ (l.length : Int) * hi := by
  induction l with
  | nil => simp
  | cons x xs ih =>
    have hx := h x (by simp)
    have ihs := ih (fun v hv => h v (by simp [hv]))
    simp only [List.sum_cons, List.length_cons]
    push_cast
    constructor <;> nlinarith [ihs.1, ihs.2, hx.1, hx.2]

/-- Full characterization of `RollResults` on a valid dice: the call returns
`some`, the raw list is the sorted draw list, the partitions are the
take/drop slices, and the value is the fold of the kept slice. -/
theorem rollResults_char {σ : Type} (d : Dice) (r : Rand σ) (s : σ)
    (h1 : 1 ≤ d.Number) (h3 : 0 ≤ d.DropLow) (h4 : 0 ≤ d.DropHigh)
    (h5 : d.DropLow + d.DropHigh < d.Number) :
    ∃ res s2,
      RollResults d r s = some (res, s2)
      ∧ res.Raw = (drawRaw r d.Sides d.Number.toNat s).1.insertionSort
          (fun a b => a ≤ b)
      ∧ s2 = (drawRaw r d.Sides d.Number.toNat s).2
      ∧ res.DroppedLow = res.Raw.take d.DropLow.toNat
      ∧ res.DroppedHigh = res.Raw.drop (d.Number - d.DropHigh).toNat
      ∧ res.Kept = (res.Raw.drop d.DropLow.toNat).take
          (d.Number - d.DropHigh - d.DropLow).toNat
      ∧ res.Value = res.Kept.foldl (fun acc v => acc + v) 0 := by
  have hlen : ((drawRaw r d.Sides d.Number.toNat s).1.insertionSort
      (fun a b => a ≤ b)).length = d.Number.toNat := by
    rw [List.length_insertionSort, drawRaw_length]
  set raw := (drawRaw r d.Sides d.Number.toNat s).1.insertionSort
      (fun a b => a ≤ b) with hraw
  have hcast : (raw.length : Int) = d.Number := by
    rw [hlen]; omega
  have hgl1 : (if d.DropLow > 0 then goSlice raw 0 d.DropLow else some [])
      = some (raw.take d.DropLow.toNat) := by
    by_cases hdl : d.DropLow > 0
    · rw [if_pos hdl]
      unfold goSlice
      rw [if_pos (by constructor <;> omega)]
      simp
    · rw [if_neg hdl]
      have : d.DropLow = 0 := by omega
      simp [this]
  have hgl2 : (if d.DropHigh > 0 then
        goSlice raw (d.Number - d.DropHigh) (raw.length : Int)
      else some [])
      = some (raw.drop (d.Number - d.DropHigh).toNat) := by
    by_cases hdh : d.DropHigh > 0
    · rw [if_pos hdh]
      unfold goSlice
      rw [if_pos (by refine ⟨by omega, by omega, by omega⟩)]
      congr 1
      apply List.take_of_length_le
      rw [List.length_drop, hlen]
      omega
    · rw [if_neg hdh]
      have hz : d.DropHigh = 0 := by omega
      rw [hz]
      rw [show (d.Number - 0).toNat = raw.length by omega]
      simp
  have hgl3 : goSlice raw d.DropLow (d.Number - d.DropHigh)
      = some ((raw.drop d.DropLow.toNat).take
          (d.Number - d.DropHigh - d.DropLow).toNat) := by
    unfold goSlice
    rw [if_pos (by refine ⟨by omega, by omega, by omega⟩)]
  refine ⟨⟨((raw.drop d.DropLow.toNat).take
        (d.Number - d.DropHigh - d.DropLow).toNat).foldl
        (fun acc v => acc + v) 0,
      raw.take d.DropLow.toNat,
      raw.drop (d.Number - d.DropHigh).toNat,
      (raw.drop d.DropLow.toNat).take
        (d.Number - d.DropHigh - d.DropLow).toNat,
      raw⟩, (drawRaw r d.Sides d.Number.toNat s).2,
    ?_, rfl, rfl, rfl, rfl, rfl, rfl⟩
  simp only [RollResults]
  rw [← hraw, hgl1, hgl2, hgl3]

/-- `NewExt` fails with error `e` exactly when `Validate` reports `e` on the
dice built from the arguments. -/
theorem newExt_error_iff (num sides droplow drophigh : Int) (e : DiceError) :
    NewExt num sides droplow drophigh = Except.error e
      ↔ Validate ⟨num, sides, droplow, drophigh⟩ = some e := by
  unfold NewExt
  cases h : Validate ⟨num, sides, droplow, drophigh⟩ <;> simp [h]

/-- Counterexample to C2 as stated: at `(num, sides, droplow, drophigh)
= (1, 2, 2^62, 2^62)` the mathematical sum of the drop counts is at least
`num`, so the claim demands the too-many-dropped error, yet `Validate`
reports no error: the program's 64-bit sum wraps to `-2^63 < 1`. -/
theorem validate_precedence_cex :
    (1 : Int) ≤ 4611686018427387904 + 4611686018427387904
  ∧ Validate ⟨1, 2, 4611686018427387904, 4611686018427387904⟩ = none :=
  ⟨by decide, by decide⟩

/-- C2, amended: `Validate` (and hence `NewExt`) evaluates the five checks in
the fixed source order and reports the first violation with the offending
value(s): number-too-low exactly when `num < 1`; sides-too-low exactly when
`num ≥ 1` and `sides ≤ 1`; drop-low exactly when the first two pass and
`droplow < 0`; drop-high exactly when the first three pass and
`drophigh < 0`; too-many-dropped exactly when the first four pass and the
wrapped 64-bit sum of `droplow` and `drophigh` is at least `num`; no error
exactly when all five pass; and `NewExt` fails with `e` exactly when
`Validate` reports `e`. -/
theorem validate_precedence (num sides droplow drophigh : Int) :
    (Validate ⟨num, sides, droplow, drophigh⟩
        = some (DiceError.numberTooLow num) ↔ num < 1)
  ∧ (Validate ⟨num, sides, droplow, drophigh⟩
        = some (DiceError.sidesTooLow sides) ↔ 1 ≤ num ∧ sides ≤ 1)
  ∧ (Validate ⟨num, sides, droplow, drophigh⟩
        = some (DiceError.dropLowTooLow droplow)
        ↔ 1 ≤ num ∧ 2 ≤ sides ∧ droplow < 0)
  ∧ (Validate ⟨num, sides, droplow, drophigh⟩
        = some (DiceError.dropHighTooLow drophigh)
        ↔ 1 ≤ num ∧ 2 ≤ sides ∧ 0 ≤ droplow ∧ drophigh < 0)
  ∧ (Validate ⟨num, sides, droplow, drophigh⟩
        = some (DiceError.tooManyDropped droplow drophigh num)
        ↔ 1 ≤ num ∧ 2 ≤ sides ∧ 0 ≤ droplow ∧ 0 ≤ drophigh
          ∧ num ≤ goIntAdd droplow drophigh)
  ∧ (Validate ⟨num, sides, droplow, drophigh⟩ = none
        ↔ 1 ≤ num ∧ 2 ≤ sides ∧ 0 ≤ droplow ∧ 0 ≤ drophigh
          ∧ goIntAdd droplow drophigh < num)
  ∧ (∀ e, NewExt num sides droplow drophigh = Except.error e
        ↔ Validate ⟨num, sides, droplow, drophigh⟩ = some e) := by
  refine ⟨?_, ?_, ?_, ?_, ?_, ?_, fun e => newExt_error_iff num sides droplow drophigh e⟩ <;>
    unfold Validate <;> dsimp only <;> split_ifs <;> simp <;> omega

/-- Counterexample to C3 as stated: at `(1, 2, 2^62, 2^62)` the mathematical
sum of the drop counts is not below `num`, so the claim demands a nil dice
and an error, yet `NewExt` returns the constructed dice and no error: the
program's wrapped 64-bit sum is negative. -/
theorem newExt_exclusive_cex :
    ¬(4611686018427387904 + 4611686018427387904 < (1 : Int))
  ∧ NewExt 1 2 4611686018427387904 4611686018427387904
      = Except.ok ⟨1, 2, 4611686018427387904, 4611686018427387904⟩ :=
  ⟨by decide, rfl⟩

/-- C3, amended: `NewExt` returns the dice with exactly the argument fields
precisely when `num ≥ 1`, `sides ≥ 2`, `droplow ≥ 0`, `drophigh ≥ 0` and the
wrapped 64-bit sum of `droplow` and `drophigh` is below `num`, and an error
precisely otherwise; the two outcomes are mutually exclusive by the shape of
`Except`. -/
theorem newExt_exclusive (num sides droplow drophigh : Int) :
    (NewExt num sides droplow drophigh
        = Except.ok ⟨num, sides, droplow, drophigh⟩
        ↔ 1 ≤ num ∧ 2 ≤ sides ∧ 0 ≤ droplow ∧ 0 ≤ drophigh
          ∧ goIntAdd droplow drophigh < num)
  ∧ (∀ d, NewExt num sides droplow drophigh = Except.ok d →
        d = ⟨num, sides, droplow, drophigh⟩)
  ∧ ((∃ e, NewExt num sides droplow drophigh = Except.error e)
        ↔ ¬(1 ≤ num ∧ 2 ≤ sides ∧ 0 ≤ droplow ∧ 0 ≤ drophigh
          ∧ goIntAdd droplow drophigh < num)) := by
  unfold NewExt Validate
  dsimp only
  split_ifs <;> simp <;> omega

/-- C5: `New num sides` returns exactly the same result as
`NewExt num sides 0 0`. -/
theorem new_eq_newExt (num sides : Int) :
    New num sides = NewExt num sides 0 0 :=
  rfl

/-- C6: `String` renders `"{Number}d{Sides}"`, appending `"L{DropLow}"`
exactly when `DropLow > 0` followed by `"H{DropHigh}"` exactly when
`DropHigh > 0`; and the dice built by `New 2 20` renders as `"2d20"`. -/
theorem string_format (d : Dice) :
    d.String = toString d.Number ++ "d" ++ toString d.Sides
        ++ (if d.DropLow > 0 then "L" ++ toString d.DropLow else "")
        ++ (if d.DropHigh > 0 then "H" ++ toString d.DropHigh else "")
  ∧ New 2 20 = Except.ok ⟨2, 20, 0, 0⟩
  ∧ Dice.String ⟨2, 20, 0, 0⟩ = "2d20" := by
  refine ⟨?_, rfl, by decide⟩
  unfold Dice.String
  split_ifs <;> simp [String.append_assoc]

/-- C7: on an already-valid dice, repeated `Validate()` calls all return no
error and leave the receiver's fields unchanged. -/
theorem validate_idempotent (d : Dice) (h : Validate d = none) :
    ∀ n : Nat, validateSeq d n = (d, List.replicate n none) := by
  intro n
  induction n with
  | zero => simp [validateSeq]
  | succ k ih => simp [validateSeq, ValidateM, h, ih, List.replicate]

/-- Witness for C7 at the concrete valid dice `2d20`. -/
theorem validate_idempotent_witness :
    Validate ⟨2, 20, 0, 0⟩ = none
  ∧ ∀ n : Nat, validateSeq ⟨2, 20, 0, 0⟩ n
      = (⟨2, 20, 0, 0⟩, List.replicate n none) :=
  ⟨by decide, validate_idempotent ⟨2, 20, 0, 0⟩ (by decide)⟩

/-- C8: `RollResults`, `RollRand` and `String` leave all four fields of the
receiver unchanged: in the receiver-transformer embedding traced from the
source (which contains no assignment to a field of `d`), the receiver after
each call is `d` itself. -/
theorem spec_never_mutated {σ : Type} (d : Dice) (r : Rand σ) (s : σ) :
    (RollResultsM d r s).2 = d ∧ (RollRandM d r s).2 = d
  ∧ (StringM d).2 = d :=
  ⟨rfl, rfl, rfl⟩

/-- C1: on a valid dice and an in-range source, `RollResults` returns a
`Results` whose `Raw` has length `Number` and is sorted ascending, whose
`DroppedLow` / `DroppedHigh` / `Kept` are the first `DropLow`, last
`DropHigh` and middle `Number - DropLow - DropHigh` elements of `Raw`, whose
concatenation low ++ kept ++ high is `Raw` exactly, and whose `Value` is the
sum of `Kept`. -/
theorem roll_partition {σ : Type} (d : Dice)
    (hn : 1 ≤ d.Number) (hs : 2 ≤ d.Sides) (hdl : 0 ≤ d.DropLow)
    (hdh : 0 ≤ d.DropHigh) (hsum : d.DropLow + d.DropHigh < d.Number)
    (r : Rand σ) (s : σ) (hr : RandInRange r) :
    ∃ res s2, RollResults d r s = some (res, s2)
      ∧ (res.Raw.length : Int) = d.Number
      ∧ List.Sorted (fun a b => a ≤ b) res.Raw
      ∧ res.DroppedLow = res.Raw.take d.DropLow.toNat
      ∧ (res.DroppedLow.length : Int) = d.DropLow
      ∧ res.DroppedHigh = res.Raw.drop (d.Number - d.DropHigh).toNat
      ∧ (res.DroppedHigh.length : Int) = d.DropHigh
      ∧ res.Kept = (res.Raw.drop d.DropLow.toNat).take
          (d.Number - d.DropHigh - d.DropLow).toNat
      ∧ (res.Kept.length : Int) = d.Number - d.DropLow - d.DropHigh
      ∧ res.DroppedLow ++ res.Kept ++ res.DroppedHigh = res.Raw
      ∧ res.Value = res.Kept.sum := by
  obtain ⟨res, s2, heq, hrawE, hs2E, hdlE, hdhE, hkE, hvE⟩ :=
    rollResults_char d r s hn hdl hdh hsum
  have hlen : res.Raw.length = d.Number.toNat := by
    rw [hrawE, List.length_insertionSort, drawRaw_length]
  have hmid : res.Raw.take d.DropLow.toNat
      ++ (res.Raw.drop d.DropLow.toNat).take
          (d.Number - d.DropHigh - d.DropLow).toNat
      = res.Raw.take (d.Number - d.DropHigh).toNat := by
    rw [List.take_drop]
    nth_rewrite 1 [show res.Raw.take d.DropLow.toNat
      = (res.Raw.take (d.DropLow.toNat
          + (d.Number - d.DropHigh - d.DropLow).toNat)).take d.DropLow.toNat
      from by rw [List.take_take]; congr 1; omega]
    rw [List.take_append_drop]
    congr 1
    omega
  refine ⟨res, s2, heq, by rw [hlen]; omega, ?_, hdlE,
    by rw [hdlE, List.length_take, hlen]; omega, hdhE,
    by rw [hdhE, List.length_drop, hlen]; omega, hkE,
    by rw [hkE, List.length_take, List.length_drop, hlen]; omega, ?_, ?_⟩
  · rw [hrawE]
    exact List.sorted_insertionSort _ _
  · rw [hdlE, hkE, hdhE, hmid, List.take_append_drop]
  · rw [hvE, foldl_add_sum]
    simp

/-- Witness for C1 at the dice `5d20L3` and the constant maximum source. -/
theorem roll_partition_witness :
    (1 : Int) ≤ 5 ∧ (2 : Int) ≤ 20 ∧ (0 : Int) ≤ 3 ∧ (0 : Int) ≤ 0
  ∧ (3 : Int) + 0 < 5 ∧ RandInRange mockMaxRand
  ∧ ∃ res s2, RollResults ⟨5, 20, 3, 0⟩ mockMaxRand () = some (res, s2)
      ∧ (res.Raw.length : Int) = 5
      ∧ List.Sorted (fun a b => a ≤ b) res.Raw
      ∧ res.DroppedLow = res.Raw.take (3 : Int).toNat
      ∧ (res.DroppedLow.length : Int) = 3
      ∧ res.DroppedHigh = res.Raw.drop ((5 : Int) - 0).toNat
      ∧ (res.DroppedHigh.length : Int) = 0
      ∧ res.Kept = (res.Raw.drop (3 : Int).toNat).take ((5 : Int) - 0 - 3).toNat
      ∧ (res.Kept.length : Int) = 5 - 3 - 0
      ∧ res.DroppedLow ++ res.Kept ++ res.DroppedHigh = res.Raw
      ∧ res.Value = res.Kept.sum :=
  ⟨by decide, by decide, by decide, by decide, by decide,
   by intro n st h; show 0 ≤ n - 1 ∧ n - 1 < n; omega,
   roll_partition ⟨5, 20, 3, 0⟩ (by decide) (by decide) (by decide) (by decide)
     (by decide) mockMaxRand ()
     (by intro n st h; show 0 ≤ n - 1 ∧ n - 1 < n; omega)⟩

/-- C9 fails on the program: the dice `⟨1, 2, 2^62, 2^62⟩` is accepted by
`Validate` — the 64-bit sum of the drop counts wraps to `-2^63`, passing the
fifth check — yet `RollResults` panics slicing `raw[:2^62]` on the 1-element
raw list (the panic is modelled by `none`).  This contradicts the
documentation of `Validate`, which promises that a spec it accepts can be
rolled without panicking. -/
theorem roll_panic_on_validated :
    Validate ⟨1, 2, 4611686018427387904, 4611686018427387904⟩ = none
  ∧ RollResults ⟨1, 2, 4611686018427387904, 4611686018427387904⟩
      mockMaxRand () = none :=
  ⟨by decide, by decide⟩

/-- C10: on a valid dice and an in-range source, the total returned by
`RollResults` (and hence by `RollRand`, and by `Roll`, which is `RollRand`
at the standard source) lies between `k` and `k * Sides` where
`k = Number - DropLow - DropHigh ≥ 1`; in particular it is at least 1. -/
theorem roll_value_bounds {σ : Type} (d : Dice)
    (hn : 1 ≤ d.Number) (hs : 2 ≤ d.Sides) (hdl : 0 ≤ d.DropLow)
    (hdh : 0 ≤ d.DropHigh) (hsum : d.DropLow + d.DropHigh < d.Number)
    (r : Rand σ) (s : σ) (hr : RandInRange r) :
    1 ≤ d.Number - d.DropLow - d.DropHigh
  ∧ (∀ res s2, RollResults d r s = some (res, s2) →
      d.Number - d.DropLow - d.DropHigh ≤ res.Value
      ∧ res.Value ≤ (d.Number - d.DropLow - d.DropHigh) * d.Sides
      ∧ 1 ≤ res.Value)
  ∧ (∀ v s2, RollRand d r s = some (v, s2) →
      d.Number - d.DropLow - d.DropHigh ≤ v
      ∧ v ≤ (d.Number - d.DropLow - d.DropHigh) * d.Sides
      ∧ 1 ≤ v) := by
  have hk1 : 1 ≤ d.Number - d.DropLow - d.DropHigh := by omega
  obtain ⟨res0, s20, heq0, hraw0, hs20, hdl0, hdh0, hk0, hv0⟩ :=
    rollResults_char d r s hn hdl hdh hsum
  have hmemraw : ∀ v ∈ res0.Raw, 1 ≤ v ∧ v ≤ d.Sides := by
    intro v hv
    rw [hraw0, List.mem_insertionSort] at hv
    exact drawRaw_mem r d.Sides (by omega) hr _ _ v hv
  have hmemkept : ∀ v ∈ res0.Kept, 1 ≤ v ∧ v ≤ d.Sides := by
    intro v hv
    rw [hk0] at hv
    exact hmemraw v (List.mem_of_mem_drop (List.mem_of_mem_take hv))
  have hklen : (res0.Kept.length : Int) = d.Number - d.DropLow - d.DropHigh := by
    rw [hk0, List.length_take, List.length_drop, hraw0,
      List.length_insertionSort, drawRaw_length]
    omega
  have hsum1 := list_sum_bounds res0.Kept 1 d.Sides hmemkept
  rw [hklen] at hsum1
  have hvalue : res0.Value = res0.Kept.sum := by
    rw [hv0, foldl_add_sum]
    simp
  have hb : d.Number - d.DropLow - d.DropHigh ≤ res0.Value
      ∧ res0.Value ≤ (d.Number - d.DropLow - d.DropHigh) * d.Sides
      ∧ 1 ≤ res0.Value := by
    rw [hvalue]
    refine ⟨by linarith [hsum1.1], hsum1.2, by linarith [hsum1.1]⟩
  refine ⟨hk1, ?_, ?_⟩
  · intro res s2 heq
    rw [heq0] at heq
    have hpair := Option.some.inj heq
    injection hpair with hA hB
    rw [← hA]
    exact hb
  · intro v s2 heq
    unfold RollRand at heq
    rw [heq0] at heq
    simp only [Option.map] at heq
    have hpair := Option.some.inj heq
    injection hpair with hA hB
    rw [← hA]
    exact hb

/-- Witness for C10 at the dice `2d20` and the constant maximum source. -/
theorem roll_value_bounds_witness :
    (1 : Int) ≤ 2 ∧ (2 : Int) ≤ 20 ∧ (0 : Int) ≤ 0 ∧ (0 : Int) ≤ 0
  ∧ (0 : Int) + 0 < 2 ∧ RandInRange mockMaxRand
  ∧ ((1 : Int) ≤ 2 - 0 - 0
      ∧ (∀ res s2, RollResults ⟨2, 20, 0, 0⟩ mockMaxRand () = some (res, s2) →
          (2 : Int) - 0 - 0 ≤ res.Value
          ∧ res.Value ≤ ((2 : Int) - 0 - 0) * 20
          ∧ 1 ≤ res.Value)
      ∧ (∀ v s2, RollRand ⟨2, 20, 0, 0⟩ mockMaxRand () = some (v, s2) →
          (2 : Int) - 0 - 0 ≤ v ∧ v ≤ ((2 : Int) - 0 - 0) * 20 ∧ 1 ≤ v)) :=
  ⟨by decide, by decide, by decide, by decide, by decide,
   by intro n st h; show 0 ≤ n - 1 ∧ n - 1 < n; omega,
   roll_value_bounds ⟨2, 20, 0, 0⟩ (by decide) (by decide) (by decide)
     (by decide) (by decide) mockMaxRand ()
     (by intro n st h; show 0 ≤ n - 1 ∧ n - 1 < n; omega)⟩

/-- C4: rolling `NewExt 5 20 3 0` with the sequential source starting at 0
draws `[1,2,3,4,5]`, giving `Raw = [1,2,3,4,5]`, `DroppedLow = [1,2,3]`,
`Kept = [4,5]` and `Value = 9`. -/
theorem roll_sequential_scenario :
    NewExt 5 20 3 0 = Except.ok ⟨5, 20, 3, 0⟩
  ∧ drawRaw mockIterRand 20 5 0 = ([1, 2, 3, 4, 5], 5)
  ∧ RollResults ⟨5, 20, 3, 0⟩ mockIterRand 0
      = some (⟨9, [1, 2, 3], [], [4, 5], [1, 2, 3, 4, 5]⟩, 5) := by
  refine ⟨rfl, by decide, by decide⟩

end RandTable
